import Mathlib

/- Verification of the delivery-guarantee and consumption-state layer of the
data_pipeline client: the producer retry engine (data_pipeline/_producer_retry.py)
and the consumer offset-tracking / rebalance logic (data_pipeline/base_consumer.py),
embedded shallowly as pure Lean functions over explicit state.

Python dicts are embedded as association lists with insertion-order preserving
writes; the external broker collaborators (watermark query, metadata load) are
embedded as oracle functions supplied per call. -/

/-- Association-list read, modelling a Python dict lookup d.get(k). -/
def dget {α β : Type} [DecidableEq α] (k : α) : List (α × β) → Option β
  | [] => none
  | (k', v) :: rest => if k = k' then some v else dget k rest

/-- Association-list write, modelling a Python dict write d[k] = v: an
existing key keeps its position, a new key is appended (insertion order). -/
def dset {α β : Type} [DecidableEq α] (k : α) (v : β) : List (α × β) → List (α × β)
  | [] => [(k, v)]
  | (k', v') :: rest => if k = k' then (k, v) :: rest else (k', v') :: dset k v rest

/-- The publish guarantee enumeration (data_pipeline.publish_guarantee). -/
inductive PublishGuaranteeEnum
  | at_least_once
  | exact_once
deriving DecidableEq, Repr

/-- The _Stats namedtuple of _producer_retry.py: (offset, message_count). -/
structure Stats where
  offset : Nat
  message_count : Nat
deriving DecidableEq, Repr

/-- _Stats.__add__: component-wise sum. -/
def Stats.add (a b : Stats) : Stats :=
  ⟨a.offset + b.offset, a.message_count + b.message_count⟩

/-- A publish request: topic, partition and the ordered message payloads
(payloads are opaque; only their count and identity matter here). -/
structure PublishRequest where
  topic : String
  partition : Nat
  messages : List Nat
deriving DecidableEq, Repr

/-- A broker publish response: either an Exception instance (e.g. a
FailedPayloadsError transport failure) or a ProduceResponse carrying
(topic, partition, offset, error code). -/
inductive KafkaResponse
  | exn
  | produce (topic : String) (partition : Nat) (offset : Nat) (error : Nat)
deriving DecidableEq, Repr

/-- RetryHandler._is_success_response: not an exception and error code 0. -/
def is_success_response : KafkaResponse → Bool
  | .exn => false
  | .produce _ _ _ e => e == 0

/-- The success_responses dict built in _update_success_requests_stats:
maps (topic, partition) to the offset of a success response; as in a Python
dict comprehension, a later response for the same key overwrites an earlier
one. -/
def success_responses (responses : List KafkaResponse) : List ((String × Nat) × Nat) :=
  responses.foldl
    (fun m r =>
      match r with
      | .exn => m
      | .produce t p o e => if e = 0 then dset (t, p) o m else m)
    []

/-- Outcome of get_actual_published_messages_count([topic], topic_offsets)
followed by .get(topic), as observed by RetryHandler._get_published_msg_count:
the call either returns a count map in which the topic may be absent
(count none), raises UnknownTopic / UnknownPartitions, or raises some other
exception. -/
inductive WatermarkResult
  | count (n : Option Nat)
  | unknownTopicOrPartition
  | otherError
deriving DecidableEq, Repr

/-- Outcome of kafka_client.load_metadata_for_topics(topic). -/
inductive MetadataResult
  | ok
  | leaderNotAvailable
  | otherError
deriving DecidableEq, Repr

/-- RetryHandler._try_load_topic_metadata: True (retry) if the metadata load
succeeds or fails with LeaderNotAvailableError, False otherwise. -/
def try_load_topic_metadata (metadata : String → MetadataResult) (topic : String) : Bool :=
  match metadata topic with
  | .ok => true
  | .leaderNotAvailable => true
  | .otherError => false

/-- The RetryHandler state (kafka_client is replaced by per-call oracles). -/
structure RetryHandler where
  initial_requests : List PublishRequest
  requests_to_be_sent : List PublishRequest
  publish_guarantee : PublishGuaranteeEnum
  success_topic_stats_map : List ((String × Nat) × Stats)
  success_topic_accum_stats_map : List ((String × Nat) × Stats)
deriving DecidableEq, Repr

/-- RetryHandler.__init__. -/
def RetryHandler.init (requests : List PublishRequest)
    (publish_guarantee : PublishGuaranteeEnum) : RetryHandler :=
  { initial_requests := requests
    requests_to_be_sent := requests
    publish_guarantee := publish_guarantee
    success_topic_stats_map := []
    success_topic_accum_stats_map := [] }

/-- RetryHandler._update_success_topic_stats: records the per-round stats and
adds them into the cumulative stats for the (topic, partition) key
(absent key treated as _Stats(0, 0)). -/
def RetryHandler.update_success_topic_stats (h : RetryHandler) (topic : String)
    (partition : Nat) (new_stats : Stats) : RetryHandler :=
  let key := (topic, partition)
  let accum_stats := (dget key h.success_topic_accum_stats_map).getD ⟨0, 0⟩
  { h with
    success_topic_stats_map := dset key new_stats h.success_topic_stats_map
    success_topic_accum_stats_map :=
      dset key (accum_stats.add new_stats) h.success_topic_accum_stats_map }

/-- RetryHandler._update_success_requests_stats: for every request with a
matching success response, record _Stats(response.offset, len(messages));
requests without one are returned, in order, for retry.  succ is the
success_responses dict already built from the responses. -/
def RetryHandler.update_success_requests_stats
    (succ : List ((String × Nat) × Nat)) (h : RetryHandler) :
    List PublishRequest → RetryHandler × List PublishRequest
  | [] => (h, [])
  | request :: rest =>
    match dget (request.topic, request.partition) succ with
    | none =>
      let r := RetryHandler.update_success_requests_stats succ h rest
      (r.1, request :: r.2)
    | some offset =>
      RetryHandler.update_success_requests_stats succ
        (h.update_success_topic_stats request.topic request.partition
          ⟨offset, request.messages.length⟩)
        rest

/-- RetryHandler._verify_failed_requests: checks the topic high watermark for
each disputed request.  A count equal to the request's message count is a
hidden success (stats recorded with offset published_count + tracked offset,
not retried); a differing or absent count means retry; an UnknownTopic /
UnknownPartitions error defers to _try_load_topic_metadata; any other error
(including the KeyError from topic_offsets[topic] when the topic is not
tracked) silently drops the request. -/
def RetryHandler.verify_failed_requests (watermark : String → WatermarkResult)
    (metadata : String → MetadataResult) (topic_offsets : List (String × Nat))
    (h : RetryHandler) : List PublishRequest → RetryHandler × List PublishRequest
  | [] => (h, [])
  | request :: rest =>
    match watermark request.topic with
    | .count published_count =>
      if published_count = some request.messages.length then
        match dget request.topic topic_offsets with
        | some tracked =>
          RetryHandler.verify_failed_requests watermark metadata topic_offsets
            (h.update_success_topic_stats request.topic request.partition
              ⟨request.messages.length + tracked, request.messages.length⟩)
            rest
        | none =>
          RetryHandler.verify_failed_requests watermark metadata topic_offsets h rest
      else
        let r := RetryHandler.verify_failed_requests watermark metadata topic_offsets h rest
        (r.1, request :: r.2)
    | .unknownTopicOrPartition =>
      if try_load_topic_metadata metadata request.topic then
        let r := RetryHandler.verify_failed_requests watermark metadata topic_offsets h rest
        (r.1, request :: r.2)
      else
        RetryHandler.verify_failed_requests watermark metadata topic_offsets h rest
    | .otherError =>
      RetryHandler.verify_failed_requests watermark metadata topic_offsets h rest

/-- RetryHandler.update_unpublished_requests: rebuilds the per-round stats
map, classifies responses, and (under exact-once) reconciles the disputed
requests against the broker watermarks, leaving requests_to_be_sent equal to
the set that must be retried. -/
def RetryHandler.update_unpublished_requests (h : RetryHandler)
    (responses : List KafkaResponse) (topic_offsets : List (String × Nat))
    (watermark : String → WatermarkResult) (metadata : String → MetadataResult) :
    RetryHandler :=
  let h0 := { h with success_topic_stats_map := [] }
  let r := RetryHandler.update_success_requests_stats
    (success_responses responses) h0 h0.requests_to_be_sent
  let r :=
    if h.publish_guarantee = PublishGuaranteeEnum.exact_once then
      RetryHandler.verify_failed_requests watermark metadata topic_offsets r.1 r.2
    else r
  { r.1 with requests_to_be_sent := r.2 }

/-- RetryHandler.total_published_message_count. -/
def RetryHandler.total_published_message_count (h : RetryHandler) : Nat :=
  (h.success_topic_accum_stats_map.map (fun kv => kv.2.message_count)).sum

/-- RetryHandler.has_unpublished_request: true unless the set of
(topic, partition) pairs of the initial requests is a subset of the keys of
the cumulative stats map. -/
def RetryHandler.has_unpublished_request (h : RetryHandler) : Bool :=
  !(h.initial_requests.all (fun r =>
      h.success_topic_accum_stats_map.any (fun kv =>
        decide (kv.1 = (r.topic, r.partition)))))

/- Consumer side (base_consumer.py).  The offset commit cache
(topic_to_partition_offset_map_cache, a defaultdict(dict)) and the candidate
topic → partition → offset maps are nested association lists. -/

/-- A topic → (partition → offset) map, as passed to commit_offsets and as
stored in topic_to_partition_offset_map_cache. -/
abbrev TopicPartitionOffsetMap := List (String × List (Nat × Nat))

/-- Reading cache[topic][partition]; an absent topic behaves as the empty
dict a defaultdict(dict) would materialise. -/
def cacheGet (c : TopicPartitionOffsetMap) (t : String) (p : Nat) : Option Nat :=
  dget p ((dget t c).getD [])

/-- One OffsetCommitRequest payload entry sent to the broker. -/
structure OffsetCommitRequest where
  topic : String
  partition : Nat
  offset : Nat
deriving DecidableEq, Repr

/-- The flattened OffsetCommitRequest list commit_offsets builds from a
topic → partition → offset map. -/
def offset_commit_request_list (m : TopicPartitionOffsetMap) : List OffsetCommitRequest :=
  (m.map (fun tpm => tpm.2.map (fun po => OffsetCommitRequest.mk tpm.1 po.1 po.2))).flatten

/-- The inner loop of _get_offsets_map_to_be_committed over one topic's
partition_map.items(): c is the whole cache, f the filtered entries already
collected for this topic.  Accessing the defaultdict cache[topic]
materialises the topic entry even when nothing is written. -/
def commit_filter_partitions (t : String) :
    TopicPartitionOffsetMap → List (Nat × Nat) → List (Nat × Nat) →
    TopicPartitionOffsetMap × List (Nat × Nat)
  | c, f, [] => (c, f)
  | c, f, (p, o) :: rest =>
    let ctopic := (dget t c).getD []
    if dget p ctopic ≠ some o then
      commit_filter_partitions t (dset t (dset p o ctopic) c) (dset p o f) rest
    else
      commit_filter_partitions t (dset t ctopic c) f rest

/-- The outer loop of _get_offsets_map_to_be_committed over
topic_to_partition_offset_map.items(); the filtered defaultdict gains a topic
entry only when at least one of its partitions is written. -/
def commit_filter_topics :
    TopicPartitionOffsetMap → TopicPartitionOffsetMap → TopicPartitionOffsetMap →
    TopicPartitionOffsetMap × TopicPartitionOffsetMap
  | c, filtered, [] => (c, filtered)
  | c, filtered, (t, pm) :: rest =>
    let r := commit_filter_partitions t c ((dget t filtered).getD []) pm
    let filtered' := if r.2 = [] then filtered else dset t r.2 filtered
    commit_filter_topics r.1 filtered' rest

/-- BaseConsumer._get_offsets_map_to_be_committed: keeps only the entries
whose offset is absent from or different in the cache, writing each kept
entry into the cache immediately; returns the updated cache and the filtered
map. -/
def get_offsets_map_to_be_committed (cache : TopicPartitionOffsetMap)
    (m : TopicPartitionOffsetMap) : TopicPartitionOffsetMap × TopicPartitionOffsetMap :=
  commit_filter_topics cache [] m

/-- BaseConsumer._send_offset_commit_requests: issues a broker commit call
only when the request list is non-empty.  The result records the payload of
the issued call, or none when no call was made. -/
def send_offset_commit_requests (l : List OffsetCommitRequest) :
    Option (List OffsetCommitRequest) :=
  if l.length > 0 then some l else none

/-- BaseConsumer.commit_offsets: diffs the map against the cache, then sends
the flattened surviving entries (if any) to the broker; returns the updated
cache and the broker call payload (none if no call was issued). -/
def commit_offsets (cache : TopicPartitionOffsetMap) (m : TopicPartitionOffsetMap) :
    TopicPartitionOffsetMap × Option (List OffsetCommitRequest) :=
  let r := get_offsets_map_to_be_committed cache m
  (r.1, send_offset_commit_requests (offset_commit_request_list r.2))

/-- Kafka position info of a consumed message (partition, offset). -/
structure KafkaPositionInfo where
  partition : Nat
  offset : Nat
deriving DecidableEq, Repr

/-- A consumed message, reduced to the fields commit_messages reads. -/
structure Message where
  topic : String
  kafka_position_info : KafkaPositionInfo
deriving DecidableEq, Repr

/-- The candidate topic → partition → offset map built by
BaseConsumer.commit_messages before it defers to commit_offsets: for each
message, the stored value of its (topic, partition) slot becomes
max(message.offset, value already stored there or 0) + 1. -/
def commit_messages_offset_map (messages : List Message) : TopicPartitionOffsetMap :=
  messages.foldl
    (fun m msg =>
      let pos := msg.kafka_position_info
      let partition_offset_map := (dget msg.topic m).getD []
      let max_offset := (dget pos.partition partition_offset_map).getD 0
      dset msg.topic
        (dset pos.partition (max pos.offset max_offset + 1) partition_offset_map) m)
    []

/-- BaseConsumer.commit_messages: group, take running maxima plus one, then
defer to the commit-diffing step. -/
def commit_messages (cache : TopicPartitionOffsetMap) (messages : List Message) :
    TopicPartitionOffsetMap × Option (List OffsetCommitRequest) :=
  commit_offsets cache (commit_messages_offset_map messages)

/-- The consumer state touched by the rebalance path. -/
structure ConsumerState where
  topic_to_partition_map : List (String × Option (List Nat))
  topic_to_partition_offset_map_cache : TopicPartitionOffsetMap
deriving DecidableEq, Repr

/-- BaseConsumer.reset_topic_to_partition_offset_cache: the cache becomes a
fresh empty defaultdict(dict). -/
def ConsumerState.reset_topic_to_partition_offset_cache (s : ConsumerState) : ConsumerState :=
  { s with topic_to_partition_offset_map_cache := [] }

/-- BaseConsumer._apply_post_rebalance_callback_to_partition: replaces
topic_to_partition_map by (a copy of) the new assignment, resets the offset
cache, then invokes the user post-rebalance callback (when one is set) with
the assignment.  The returned Option records the argument of that
invocation. -/
def ConsumerState.apply_post_rebalance_callback_to_partition (s : ConsumerState)
    (has_callback : Bool) (partitions : List (String × List Nat)) :
    ConsumerState × Option (List (String × List Nat)) :=
  let s := { s with
    topic_to_partition_map :=
      partitions.map (fun (kv : String × List Nat) => (kv.1, dget kv.1 partitions)) }
  let s := s.reset_topic_to_partition_offset_cache
  (s, if has_callback then some partitions else none)

/-- BaseConsumer.__exit__: stop() is always attempted; a stop failure is
logged and re-raised only when no exception is already propagating from the
with-block body; False is returned so a propagating body exception is never
suppressed.  consumer_exit returns the exception that propagates out of the
with-block (stop_result is the exception stop() raised, if any). -/
def consumer_exit {ε : Type} (stop_result : Option ε) (body_exc : Option ε) : Option ε :=
  match stop_result with
  | none => body_exc
  | some stop_e =>
    match body_exc with
    | none => some stop_e
    | some e => some e

/- Auxiliary predicates and specification-side functions used by the
statements below. -/

/-- Monotone growth of the cumulative stats map: every key keeps an entry
and its message_count never decreases. -/
def AccumMono (a b : List ((String × Nat) × Stats)) : Prop :=
  ∀ key s, dget key a = some s →
    ∃ s', dget key b = some s' ∧ s.message_count ≤ s'.message_count

/-- First-defined lookup on Option values. -/
def mergeLookup (a b : Option Nat) : Option Nat :=
  match a with
  | some v => some v
  | none => b

/-- Lookup of the offset stored for (topic, partition) in a nested map. -/
def mLookup (m : TopicPartitionOffsetMap) (t : String) (p : Nat) : Option Nat :=
  (dget t m).bind (fun pm => dget p pm)

/-- The entries of m whose offset differs from what the given lookup
reports, flattened into OffsetCommitRequest payloads in map order. -/
def diffAgainst (lookup : String → Nat → Option Nat) (m : TopicPartitionOffsetMap) :
    List OffsetCommitRequest :=
  (m.map (fun tpm =>
    (tpm.2.filter (fun po => decide (lookup tpm.1 po.1 ≠ some po.2))).map
      (fun po => OffsetCommitRequest.mk tpm.1 po.1 po.2))).flatten

/-- Well-formedness of a nested offsets map as the embedding of a Python
dict of dicts: topic keys are distinct and each topic's partition keys are
distinct. -/
def OffsetsNodup (m : TopicPartitionOffsetMap) : Prop :=
  (m.map Prod.fst).Nodup ∧ ∀ tpm ∈ m, ((tpm.2 : List (Nat × Nat)).map Prod.fst).Nodup

/- The spec's worked example for the exact-once reconciliation path:
two requests to topicA (partitions 0 and 1), round-1 responses a success for
partition 0 at offset 10 and a transport failure for partition 1, tracked
offset 7 for topicA, and a watermark query reporting 2 actually published
messages. -/

def example_requests : List PublishRequest :=
  [⟨"topicA", 0, [1, 2, 3]⟩, ⟨"topicA", 1, [4, 5]⟩]

def example_responses : List KafkaResponse :=
  [.produce "topicA" 0 10 0, .exn]

def example_topic_offsets : List (String × Nat) := [("topicA", 7)]

def example_watermark : String → WatermarkResult := fun _ => .count (some 2)

def example_metadata : String → MetadataResult := fun _ => .otherError

def example_handler : RetryHandler :=
  (RetryHandler.init example_requests PublishGuaranteeEnum.exact_once).update_unpublished_requests
    example_responses example_topic_offsets example_watermark example_metadata

/- Association-list lemmas. -/

theorem dget_dset_self {α β : Type} [DecidableEq α] (k : α) (v : β) (l : List (α × β)) :
    dget k (dset k v l) = some v := by
  induction l with
  | nil => simp [dget, dset]
  | cons kv rest ih =>
    obtain ⟨k', v'⟩ := kv
    by_cases h : k = k' <;> simp [dget, dset, h, ih]

theorem dget_dset_ne {α β : Type} [DecidableEq α] {k k' : α} (h : k ≠ k') (v : β)
    (l : List (α × β)) : dget k (dset k' v l) = dget k l := by
  induction l with
  | nil => simp [dget, dset, h]
  | cons kv rest ih =>
    obtain ⟨a, b⟩ := kv
    by_cases ha : k' = a
    · subst ha
      simp [dget, dset, h]
    · by_cases hka : k = a <;> simp [dget, dset, ha, hka, ih]

theorem dget_eq_none_of_not_mem {α β : Type} [DecidableEq α] {k : α} {l : List (α × β)}
    (h : k ∉ l.map Prod.fst) : dget k l = none := by
  induction l with
  | nil => simp [dget]
  | cons kv rest ih =>
    simp only [List.map_cons, List.mem_cons, not_or] at h
    simp [dget, h.1, ih h.2]

theorem dget_of_mem_of_nodup {α β : Type} [DecidableEq α] {k : α} {v : β}
    {l : List (α × β)} (hnd : (l.map Prod.fst).Nodup) (hm : (k, v) ∈ l) :
    dget k l = some v := by
  induction l with
  | nil => simp at hm
  | cons kv rest ih =>
    obtain ⟨a, b⟩ := kv
    simp only [List.map_cons, List.nodup_cons] at hnd
    rcases List.mem_cons.mp hm with h | h
    · obtain ⟨rfl, rfl⟩ := Prod.mk.injEq .. ▸ h
      simp [dget]
    · have hka : k ≠ a := by
        rintro rfl
        exact hnd.1 (List.mem_map.mpr ⟨(k, v), h, rfl⟩)
      simp [dget, hka, ih hnd.2 h]

theorem dset_eq_append_of_not_mem {α β : Type} [DecidableEq α] {k : α} (v : β)
    {l : List (α × β)} (h : k ∉ l.map Prod.fst) : dset k v l = l ++ [(k, v)] := by
  induction l with
  | nil => simp [dset]
  | cons kv rest ih =>
    obtain ⟨a, b⟩ := kv
    simp only [List.map_cons, List.mem_cons, not_or] at h
    have : k ≠ a := h.1
    simp [dset, this, ih h.2]

theorem mem_map_fst_dset {α β : Type} [DecidableEq α] {x k : α} (v : β)
    (l : List (α × β)) : x ∈ ((dset k v l).map Prod.fst) ↔ x = k ∨ x ∈ l.map Prod.fst := by
  induction l with
  | nil => simp [dset]
  | cons kv rest ih =>
    obtain ⟨a, b⟩ := kv
    by_cases h : k = a
    · subst h
      simp [dset]
    · simp [dset, h, ih]
      tauto

/-- C9: on exit from the consumer context manager stop() is attempted; a
propagating body exception always wins (it is never suppressed, and a stop
failure alongside it is swallowed), while a stop failure with no body
exception propagates itself. -/
theorem consumer_exit_exception_priority {ε : Type} (stop_result body_exc : Option ε) :
    consumer_exit stop_result body_exc =
      if body_exc.isSome then body_exc else stop_result := by
  cases stop_result <;> cases body_exc <;> rfl

/-- C1 (code bug): for the message list [offset 5, offset 3] on one
(topic, partition) group, commit_messages submits candidate offset 7, not
max-offset-plus-one 6: the running slot value already includes +1 and is
max-ed against the next raw offset before being incremented again. -/
theorem commit_messages_double_increment :
    commit_messages_offset_map
        [⟨"topicA", ⟨0, 5⟩⟩, ⟨"topicA", ⟨0, 3⟩⟩] = [("topicA", [(0, 7)])]
    ∧ (7 : Nat) ≠ max 5 3 + 1 := by
  decide

/-- C4: has_unpublished_request is false iff every (topic, partition) of the
initial request list has a cumulative stats entry, and true exactly when
that subset relation fails. -/
theorem has_unpublished_request_iff (h : RetryHandler) :
    (h.has_unpublished_request = false ↔
      ∀ r ∈ h.initial_requests,
        (r.topic, r.partition) ∈ h.success_topic_accum_stats_map.map Prod.fst)
    ∧ (h.has_unpublished_request = true ↔
      ¬ ∀ r ∈ h.initial_requests,
        (r.topic, r.partition) ∈ h.success_topic_accum_stats_map.map Prod.fst) := by
  have hc : (h.initial_requests.all (fun r =>
      h.success_topic_accum_stats_map.any (fun kv =>
        decide (kv.1 = (r.topic, r.partition)))) = true) ↔
      ∀ r ∈ h.initial_requests,
        (r.topic, r.partition) ∈ h.success_topic_accum_stats_map.map Prod.fst := by
    simp only [List.all_eq_true, List.any_eq_true, decide_eq_true_eq, List.mem_map]
  constructor
  · simpa only [RetryHandler.has_unpublished_request, Bool.not_eq_false'] using hc
  · simp only [RetryHandler.has_unpublished_request, Bool.not_eq_true', ← hc]
    constructor
    · intro hf
      simp [hf]
    · intro hn
      cases hx : h.initial_requests.all (fun r =>
          h.success_topic_accum_stats_map.any (fun kv =>
            decide (kv.1 = (r.topic, r.partition))))
      · rfl
      · exact absurd hx hn

theorem has_unpublished_request_iff_witness :
    (RetryHandler.init example_requests PublishGuaranteeEnum.exact_once).has_unpublished_request
      = true :=
  (has_unpublished_request_iff
      (RetryHandler.init example_requests PublishGuaranteeEnum.exact_once)).2.mpr
    (by decide)

theorem update_success_requests_stats_sublist (succ : List ((String × Nat) × Nat)) :
    ∀ (reqs : List PublishRequest) (h : RetryHandler),
      (RetryHandler.update_success_requests_stats succ h reqs).2.Sublist reqs := by
  intro reqs
  induction reqs with
  | nil =>
    intro h
    simp [RetryHandler.update_success_requests_stats]
  | cons req rest ih =>
    intro h
    unfold RetryHandler.update_success_requests_stats
    cases hd : dget (req.topic, req.partition) succ with
    | none =>
      simp only [hd]
      exact List.Sublist.cons₂ req (ih h)
    | some off =>
      simp only [hd]
      exact List.Sublist.cons req (ih _)

theorem verify_failed_requests_sublist (w : String → WatermarkResult)
    (md : String → MetadataResult) (toff : List (String × Nat)) :
    ∀ (reqs : List PublishRequest) (h : RetryHandler),
      (RetryHandler.verify_failed_requests w md toff h reqs).2.Sublist reqs := by
  intro reqs
  induction reqs with
  | nil =>
    intro h
    simp [RetryHandler.verify_failed_requests]
  | cons req rest ih =>
    intro h
    unfold RetryHandler.verify_failed_requests
    cases hw : w req.topic with
    | count pc =>
      by_cases hc : pc = some req.messages.length
      · subst hc
        simp only [hw, if_pos rfl]
        cases hdo : dget req.topic toff with
        | some tracked =>
          simp only [hdo]
          exact List.Sublist.cons req (ih _)
        | none =>
          simp only [hdo]
          exact List.Sublist.cons req (ih _)
      · simp only [hw, if_neg hc]
        exact List.Sublist.cons₂ req (ih _)
    | unknownTopicOrPartition =>
      by_cases hm : try_load_topic_metadata md req.topic
      · simp only [hw, hm, if_pos rfl]
        exact List.Sublist.cons₂ req (ih _)
      · simp only [hw, Bool.not_eq_true] at *
        simp only [hw, hm]
        simp only [Bool.false_eq_true, if_neg (by simp [hm] : ¬(try_load_topic_metadata md req.topic = true))]
        exact List.Sublist.cons req (ih _)
    | otherError =>
      simp only [hw]
      exact List.Sublist.cons req (ih _)

/-- C10: one update_unpublished_requests call, in either guarantee mode,
shrinks requests_to_be_sent to an order-preserving subsequence of the prior
requests_to_be_sent: no additions, no duplication, order unchanged. -/
theorem update_unpublished_requests_sublist (h : RetryHandler)
    (responses : List KafkaResponse) (toff : List (String × Nat))
    (w : String → WatermarkResult) (md : String → MetadataResult) :
    (h.update_unpublished_requests responses toff w md).requests_to_be_sent.Sublist
      h.requests_to_be_sent := by
  unfold RetryHandler.update_unpublished_requests
  by_cases hg : h.publish_guarantee = PublishGuaranteeEnum.exact_once
  · simp only [if_pos hg]
    exact (verify_failed_requests_sublist w md toff _ _).trans
      (update_success_requests_stats_sublist _ _ _)
  · simp only [if_neg hg]
    exact update_success_requests_stats_sublist _ _ _

/- Monotone growth of the cumulative stats map. -/

theorem accumMono_refl (a : List ((String × Nat) × Stats)) : AccumMono a a :=
  fun _ s hs => ⟨s, hs, le_refl _⟩

theorem accumMono_trans {a b c : List ((String × Nat) × Stats)}
    (h1 : AccumMono a b) (h2 : AccumMono b c) : AccumMono a c := by
  intro key s hs
  obtain ⟨s1, hs1, hle1⟩ := h1 key s hs
  obtain ⟨s2, hs2, hle2⟩ := h2 key s1 hs1
  exact ⟨s2, hs2, hle1.trans hle2⟩

theorem accumMono_update_success_topic_stats (h : RetryHandler) (t : String)
    (p : Nat) (ns : Stats) :
    AccumMono h.success_topic_accum_stats_map
      (h.update_success_topic_stats t p ns).success_topic_accum_stats_map := by
  intro key s hs
  simp only [RetryHandler.update_success_topic_stats]
  by_cases hk : key = (t, p)
  · subst hk
    rw [dget_dset_self]
    refine ⟨_, rfl, ?_⟩
    rw [hs]
    simp [Stats.add]
  · rw [dget_dset_ne hk]
    exact ⟨s, hs, le_refl _⟩

theorem accumMono_update_success_requests_stats (succ : List ((String × Nat) × Nat)) :
    ∀ (reqs : List PublishRequest) (h : RetryHandler),
      AccumMono h.success_topic_accum_stats_map
        ((RetryHandler.update_success_requests_stats succ h reqs).1).success_topic_accum_stats_map := by
  intro reqs
  induction reqs with
  | nil =>
    intro h
    simp only [RetryHandler.update_success_requests_stats]
    exact accumMono_refl _
  | cons req rest ih =>
    intro h
    unfold RetryHandler.update_success_requests_stats
    cases hd : dget (req.topic, req.partition) succ with
    | none =>
      simp only [hd]
      exact ih h
    | some off =>
      simp only [hd]
      exact accumMono_trans (accumMono_update_success_topic_stats h _ _ _) (ih _)

theorem accumMono_verify_failed_requests (w : String → WatermarkResult)
    (md : String → MetadataResult) (toff : List (String × Nat)) :
    ∀ (reqs : List PublishRequest) (h : RetryHandler),
      AccumMono h.success_topic_accum_stats_map
        ((RetryHandler.verify_failed_requests w md toff h reqs).1).success_topic_accum_stats_map := by
  intro reqs
  induction reqs with
  | nil =>
    intro h
    simp only [RetryHandler.verify_failed_requests]
    exact accumMono_refl _
  | cons req rest ih =>
    intro h
    unfold RetryHandler.verify_failed_requests
    cases hw : w req.topic with
    | count pc =>
      by_cases hc : pc = some req.messages.length
      · subst hc
        simp only [hw, if_pos rfl]
        cases hdo : dget req.topic toff with
        | some tracked =>
          simp only [hdo]
          exact accumMono_trans (accumMono_update_success_topic_stats h _ _ _) (ih _)
        | none =>
          simp only [hdo]
          exact ih h
      · simp only [hw, if_neg hc]
        exact ih h
    | unknownTopicOrPartition =>
      by_cases hm : try_load_topic_metadata md req.topic
      · simp only [hw, hm, if_pos rfl]
        exact ih h
      · simp only [Bool.not_eq_true] at hm
        simp only [hw, hm, Bool.false_eq_true, if_false]
        exact ih h
    | otherError =>
      simp only [hw]
      exact ih h

/-- C7: the cumulative stats map never shrinks across an
update_unpublished_requests call, in either guarantee mode: every existing
key survives and its message_count never decreases. -/
theorem accum_stats_monotone (h : RetryHandler) (responses : List KafkaResponse)
    (toff : List (String × Nat)) (w : String → WatermarkResult)
    (md : String → MetadataResult) (key : String × Nat) (s : Stats)
    (hs : dget key h.success_topic_accum_stats_map = some s) :
    ∃ s', dget key
        (h.update_unpublished_requests responses toff w md).success_topic_accum_stats_map
        = some s' ∧ s.message_count ≤ s'.message_count := by
  unfold RetryHandler.update_unpublished_requests
  by_cases hg : h.publish_guarantee = PublishGuaranteeEnum.exact_once
  · simp only [if_pos hg]
    exact accumMono_trans
      (accumMono_update_success_requests_stats (success_responses responses) _ _)
      (accumMono_verify_failed_requests w md toff _ _) key s hs
  · simp only [if_neg hg]
    exact accumMono_update_success_requests_stats (success_responses responses) _ _ key s hs

theorem accum_stats_monotone_witness :
    ∃ s', dget ("a", 0)
        ((RetryHandler.mk [] [] PublishGuaranteeEnum.exact_once []
            [(("a", 0), ⟨1, 2⟩)]).update_unpublished_requests []
          [] (fun _ => WatermarkResult.otherError)
          (fun _ => MetadataResult.otherError)).success_topic_accum_stats_map
        = some s' ∧ (2 : Nat) ≤ s'.message_count :=
  accum_stats_monotone _ _ _ _ _ ("a", 0) ⟨1, 2⟩ (by decide)

/- Which disputed requests survive exact-once verification. -/

/-- A request whose watermark outcome resolves to a drop (hidden success,
KeyError on the tracked offset, unknown topic with failing metadata load, or
any other watermark failure) never appears in the computed retry set. -/
theorem verify_not_mem_of_drop (w : String → WatermarkResult)
    (md : String → MetadataResult) (toff : List (String × Nat)) (req : PublishRequest)
    (hdrop : match w req.topic with
      | WatermarkResult.count pc => pc = some req.messages.length
      | WatermarkResult.unknownTopicOrPartition =>
          try_load_topic_metadata md req.topic = false
      | WatermarkResult.otherError => True) :
    ∀ (reqs : List PublishRequest) (h : RetryHandler),
      req ∉ (RetryHandler.verify_failed_requests w md toff h reqs).2 := by
  intro reqs
  induction reqs with
  | nil =>
    intro h
    simp [RetryHandler.verify_failed_requests]
  | cons r rest ih =>
    intro h
    unfold RetryHandler.verify_failed_requests
    cases hwr : w r.topic with
    | count pc =>
      by_cases hc : pc = some r.messages.length
      · subst hc
        simp only [hwr, if_pos rfl]
        cases hdo : dget r.topic toff with
        | some tracked =>
          simp only [hdo]
          exact ih _
        | none =>
          simp only [hdo]
          exact ih _
      · simp only [hwr, if_neg hc]
        intro hmem
        rcases List.mem_cons.mp hmem with rfl | hmem'
        · rw [hwr] at hdrop
          exact hc hdrop
        · exact ih _ hmem'
    | unknownTopicOrPartition =>
      by_cases hm : try_load_topic_metadata md r.topic
      · simp only [hwr, hm, if_pos rfl]
        intro hmem
        rcases List.mem_cons.mp hmem with rfl | hmem'
        · rw [hwr] at hdrop
          rw [hdrop] at hm
          exact absurd hm (by simp)
        · exact ih _ hmem'
      · simp only [Bool.not_eq_true] at hm
        simp only [hwr, hm, Bool.false_eq_true, if_false]
        exact ih _
    | otherError =>
      simp only [hwr]
      exact ih _

/-- A disputed request whose watermark query reports unknown topic/partition
and whose metadata load succeeds (or fails only with LeaderNotAvailableError)
is kept in the computed retry set. -/
theorem verify_mem_unknown_retry (w : String → WatermarkResult)
    (md : String → MetadataResult) (toff : List (String × Nat)) (req : PublishRequest)
    (hw : w req.topic = WatermarkResult.unknownTopicOrPartition)
    (hm : try_load_topic_metadata md req.topic = true) :
    ∀ (reqs : List PublishRequest) (h : RetryHandler), req ∈ reqs →
      req ∈ (RetryHandler.verify_failed_requests w md toff h reqs).2 := by
  intro reqs
  induction reqs with
  | nil =>
    intro h hmem
    simp at hmem
  | cons r rest ih =>
    intro h hmem
    unfold RetryHandler.verify_failed_requests
    rcases List.mem_cons.mp hmem with rfl | hmem'
    · simp only [hw, hm, if_pos rfl]
      exact List.mem_cons_self _ _
    · cases hwr : w r.topic with
      | count pc =>
        by_cases hc : pc = some r.messages.length
        · subst hc
          simp only [hwr, if_pos rfl]
          cases hdo : dget r.topic toff with
          | some tracked =>
            simp only [hdo]
            exact ih _ hmem'
          | none =>
            simp only [hdo]
            exact ih _ hmem'
        · simp only [hwr, if_neg hc]
          exact List.mem_cons_of_mem _ (ih _ hmem')
      | unknownTopicOrPartition =>
        by_cases hmr : try_load_topic_metadata md r.topic
        · simp only [hwr, hmr, if_pos rfl]
          exact List.mem_cons_of_mem _ (ih _ hmem')
        · simp only [Bool.not_eq_true] at hmr
          simp only [hwr, hmr, Bool.false_eq_true, if_false]
          exact ih _ hmem'
      | otherError =>
        simp only [hwr]
        exact ih _ hmem'

/-- A disputed request reconciled as a hidden success leaves a cumulative
stats entry under its (topic, partition) key. -/
theorem verify_accum_key_hidden (w : String → WatermarkResult)
    (md : String → MetadataResult) (toff : List (String × Nat)) (req : PublishRequest)
    (tracked : Nat)
    (hw : w req.topic = WatermarkResult.count (some req.messages.length))
    (ht : dget req.topic toff = some tracked) :
    ∀ (reqs : List PublishRequest) (h : RetryHandler), req ∈ reqs →
      ∃ s, dget (req.topic, req.partition)
        ((RetryHandler.verify_failed_requests w md toff h reqs).1).success_topic_accum_stats_map
          = some s := by
  intro reqs
  induction reqs with
  | nil =>
    intro h hmem
    simp at hmem
  | cons r rest ih =>
    intro h hmem
    unfold RetryHandler.verify_failed_requests
    rcases List.mem_cons.mp hmem with rfl | hmem'
    · simp only [hw, if_pos rfl, ht]
      have hkey : dget (req.topic, req.partition)
          (h.update_success_topic_stats req.topic req.partition
            ⟨req.messages.length + tracked, req.messages.length⟩).success_topic_accum_stats_map
          = some (((dget (req.topic, req.partition)
              h.success_topic_accum_stats_map).getD ⟨0, 0⟩).add
            ⟨req.messages.length + tracked, req.messages.length⟩) := by
        simp only [RetryHandler.update_success_topic_stats]
        exact dget_dset_self _ _ _
      obtain ⟨s', hs', _⟩ := accumMono_verify_failed_requests w md toff rest _
        (req.topic, req.partition) _ hkey
      exact ⟨s', hs'⟩
    · cases hwr : w r.topic with
      | count pc =>
        by_cases hc : pc = some r.messages.length
        · subst hc
          simp only [hwr, if_pos rfl]
          cases hdo : dget r.topic toff with
          | some tr =>
            simp only [hdo]
            exact ih _ hmem'
          | none =>
            simp only [hdo]
            exact ih _ hmem'
        · simp only [hwr, if_neg hc]
          exact ih _ hmem'
      | unknownTopicOrPartition =>
        by_cases hmr : try_load_topic_metadata md r.topic
        · simp only [hwr, hmr, if_pos rfl]
          exact ih _ hmem'
        · simp only [Bool.not_eq_true] at hmr
          simp only [hwr, hmr, Bool.false_eq_true, if_false]
          exact ih _ hmem'
      | otherError =>
        simp only [hwr]
        exact ih _ hmem'

/-- C2: under exact-once, a disputed request whose watermark query succeeds
with an actual published count equal to its message count is a hidden
success: it is dropped from the retry set and its (topic, partition) gains a
cumulative stats entry; on the spec's two-request example the final
cumulative stats are {(topicA,0): Stat(10,3), (topicA,1): Stat(9,2)}, the
total published message count is 5 and has_unpublished_request is false. -/
theorem exact_once_hidden_success :
    (∀ (w : String → WatermarkResult) (md : String → MetadataResult)
        (toff : List (String × Nat)) (h : RetryHandler) (reqs : List PublishRequest)
        (req : PublishRequest) (tracked : Nat), req ∈ reqs →
        w req.topic = WatermarkResult.count (some req.messages.length) →
        dget req.topic toff = some tracked →
        req ∉ (RetryHandler.verify_failed_requests w md toff h reqs).2 ∧
        ∃ s, dget (req.topic, req.partition)
          ((RetryHandler.verify_failed_requests w md toff h reqs).1).success_topic_accum_stats_map
            = some s)
    ∧ example_handler.success_topic_accum_stats_map
        = [(("topicA", 0), ⟨10, 3⟩), (("topicA", 1), ⟨9, 2⟩)]
    ∧ example_handler.requests_to_be_sent = []
    ∧ example_handler.total_published_message_count = 5
    ∧ example_handler.has_unpublished_request = false := by
  refine ⟨?_, by decide, by decide, by decide, by decide⟩
  intro w md toff h reqs req tracked hmem hw ht
  refine ⟨verify_not_mem_of_drop w md toff req ?_ reqs h,
    verify_accum_key_hidden w md toff req tracked hw ht reqs h hmem⟩
  rw [hw]

theorem exact_once_hidden_success_witness :
    (⟨"topicA", 1, [4, 5]⟩ : PublishRequest) ∉
        (RetryHandler.verify_failed_requests example_watermark example_metadata
          example_topic_offsets
          (RetryHandler.init example_requests PublishGuaranteeEnum.exact_once)
          [⟨"topicA", 1, [4, 5]⟩]).2 ∧
    ∃ s, dget ("topicA", 1)
        ((RetryHandler.verify_failed_requests example_watermark example_metadata
          example_topic_offsets
          (RetryHandler.init example_requests PublishGuaranteeEnum.exact_once)
          [⟨"topicA", 1, [4, 5]⟩]).1).success_topic_accum_stats_map = some s :=
  exact_once_hidden_success.1 example_watermark example_metadata example_topic_offsets
    _ _ _ 7 (by decide) (by decide) (by decide)

/-- C3: under exact-once, a disputed request whose watermark query raises
unknown topic/partition is placed in the next retry set iff the metadata
load for its topic succeeds or fails with LeaderNotAvailableError; a
watermark failure of any other kind drops the request without raising. -/
theorem unknown_topic_retry_iff (w : String → WatermarkResult)
    (md : String → MetadataResult) (toff : List (String × Nat)) (h : RetryHandler)
    (reqs : List PublishRequest) (req : PublishRequest) (hmem : req ∈ reqs) :
    (w req.topic = WatermarkResult.unknownTopicOrPartition →
      (req ∈ (RetryHandler.verify_failed_requests w md toff h reqs).2 ↔
        (md req.topic = MetadataResult.ok ∨
          md req.topic = MetadataResult.leaderNotAvailable))) ∧
    (w req.topic = WatermarkResult.otherError →
      req ∉ (RetryHandler.verify_failed_requests w md toff h reqs).2) := by
  constructor
  · intro hw
    constructor
    · intro hin
      by_contra hno
      push_neg at hno
      have hm : try_load_topic_metadata md req.topic = false := by
        unfold try_load_topic_metadata
        cases hmd : md req.topic with
        | ok => exact absurd hmd hno.1
        | leaderNotAvailable => exact absurd hmd hno.2
        | otherError => rfl
      refine absurd hin (verify_not_mem_of_drop w md toff req ?_ reqs h)
      rw [hw]
      exact hm
    · intro hmd
      have hm : try_load_topic_metadata md req.topic = true := by
        unfold try_load_topic_metadata
        rcases hmd with h1 | h1 <;> rw [h1]
      exact verify_mem_unknown_retry w md toff req hw hm reqs h hmem
  · intro hw
    refine verify_not_mem_of_drop w md toff req ?_ reqs h
    rw [hw]
    trivial

theorem unknown_topic_retry_iff_witness :
    (⟨"t", 0, []⟩ : PublishRequest) ∈
        (RetryHandler.verify_failed_requests
          (fun _ => WatermarkResult.unknownTopicOrPartition)
          (fun _ => MetadataResult.leaderNotAvailable) []
          (RetryHandler.init [] PublishGuaranteeEnum.exact_once)
          [⟨"t", 0, []⟩]).2 :=
  ((unknown_topic_retry_iff _ _ _ _ _ _ (by decide)).1 rfl).mpr (Or.inr rfl)

/- Total published message count accounting. -/

theorem Stats.add_message_count (a b : Stats) :
    (a.add b).message_count = a.message_count + b.message_count := rfl

theorem sum_message_count_dset (k : String × Nat) (v : Stats)
    (l : List ((String × Nat) × Stats)) :
    ((dset k v l).map (fun kv => kv.2.message_count)).sum
        + ((dget k l).getD ⟨0, 0⟩).message_count
      = (l.map (fun kv => kv.2.message_count)).sum + v.message_count := by
  induction l with
  | nil => simp [dset, dget]
  | cons kv' rest ih =>
    obtain ⟨a, b⟩ := kv'
    by_cases hk : k = a
    · subst hk
      simp [dset, dget]
      omega
    · simp [dset, dget, hk]
      omega

theorem total_update_success_topic_stats (h : RetryHandler) (t : String) (p : Nat)
    (ns : Stats) :
    (h.update_success_topic_stats t p ns).total_published_message_count
      = h.total_published_message_count + ns.message_count := by
  simp only [RetryHandler.total_published_message_count,
    RetryHandler.update_success_topic_stats]
  have hsum := sum_message_count_dset (t, p)
    (((dget (t, p) h.success_topic_accum_stats_map).getD ⟨0, 0⟩).add ns)
    h.success_topic_accum_stats_map
  simp only [Stats.add_message_count] at hsum
  omega

theorem update_success_all_matched (succ : List ((String × Nat) × Nat)) :
    ∀ (reqs : List PublishRequest) (h : RetryHandler),
      (∀ req ∈ reqs, (dget (req.topic, req.partition) succ).isSome) →
      (RetryHandler.update_success_requests_stats succ h reqs).2 = [] ∧
      ((RetryHandler.update_success_requests_stats succ h reqs).1).total_published_message_count
        = h.total_published_message_count + (reqs.map (fun r => r.messages.length)).sum := by
  intro reqs
  induction reqs with
  | nil =>
    intro h _
    simp [RetryHandler.update_success_requests_stats]
  | cons req rest ih =>
    intro h hall
    have hhead := hall req (List.mem_cons_self _ _)
    cases hd : dget (req.topic, req.partition) succ with
    | none =>
      rw [hd] at hhead
      simp at hhead
    | some off =>
      unfold RetryHandler.update_success_requests_stats
      simp only [hd]
      obtain ⟨h1, h2⟩ := ih _ (fun r hr => hall r (List.mem_cons_of_mem _ hr))
      refine ⟨h1, ?_⟩
      rw [h2, total_update_success_topic_stats]
      simp
      omega

theorem all_matched_no_retry (h : RetryHandler) (responses : List KafkaResponse)
    (toff : List (String × Nat)) (w : String → WatermarkResult)
    (md : String → MetadataResult)
    (hall : ∀ req ∈ h.requests_to_be_sent,
      (dget (req.topic, req.partition) (success_responses responses)).isSome) :
    (h.update_unpublished_requests responses toff w md).requests_to_be_sent = []
    ∧ (h.update_unpublished_requests responses toff w md).total_published_message_count
      = h.total_published_message_count
        + (h.requests_to_be_sent.map (fun r => r.messages.length)).sum := by
  obtain ⟨h1, h2⟩ := update_success_all_matched (success_responses responses)
    h.requests_to_be_sent { h with success_topic_stats_map := [] } hall
  have h3 : ({ h with success_topic_stats_map := [] } : RetryHandler).total_published_message_count
      = h.total_published_message_count := rfl
  rw [h3] at h2
  simp only [RetryHandler.update_unpublished_requests]
  by_cases hg : h.publish_guarantee = PublishGuaranteeEnum.exact_once
  · simp only [if_pos hg, h1, RetryHandler.verify_failed_requests]
    exact ⟨trivial, h2⟩
  · simp only [if_neg hg, h1]
    exact ⟨trivial, h2⟩

/-- C8: for a fresh RetryHandler whose every request has a matching success
response, one update_unpublished_requests call empties requests_to_be_sent
and total_published_message_count equals the sum of all request message
counts. -/
theorem all_success_one_round (requests : List PublishRequest)
    (g : PublishGuaranteeEnum) (responses : List KafkaResponse)
    (toff : List (String × Nat)) (w : String → WatermarkResult)
    (md : String → MetadataResult)
    (hall : ∀ req ∈ requests,
      (dget (req.topic, req.partition) (success_responses responses)).isSome) :
    ((RetryHandler.init requests g).update_unpublished_requests
        responses toff w md).requests_to_be_sent = []
    ∧ ((RetryHandler.init requests g).update_unpublished_requests
        responses toff w md).total_published_message_count
      = (requests.map (fun r => r.messages.length)).sum := by
  obtain ⟨h1, h2⟩ := all_matched_no_retry (RetryHandler.init requests g)
    responses toff w md hall
  refine ⟨h1, ?_⟩
  rw [h2]
  simp [RetryHandler.init, RetryHandler.total_published_message_count]

theorem all_success_one_round_witness :
    ((RetryHandler.init [⟨"t", 0, [1]⟩] PublishGuaranteeEnum.at_least_once).update_unpublished_requests
        [KafkaResponse.produce "t" 0 4 0] [] (fun _ => WatermarkResult.otherError)
        (fun _ => MetadataResult.otherError)).requests_to_be_sent = []
    ∧ ((RetryHandler.init [⟨"t", 0, [1]⟩] PublishGuaranteeEnum.at_least_once).update_unpublished_requests
        [KafkaResponse.produce "t" 0 4 0] [] (fun _ => WatermarkResult.otherError)
        (fun _ => MetadataResult.otherError)).total_published_message_count
      = (([⟨"t", 0, [1]⟩] : List PublishRequest).map (fun r => r.messages.length)).sum :=
  all_success_one_round _ _ _ _ _ _ (by decide)

/-- C6: after the post-rebalance handler runs, the offset-commit cache is
empty and topic_to_partition_map holds exactly the new assignment's keys and
partition values, whatever the prior state; the user callback, when present,
is then invoked with the assignment. -/
theorem post_rebalance_resets (s : ConsumerState) (has_callback : Bool)
    (partitions : List (String × List Nat))
    (hnd : (partitions.map Prod.fst).Nodup) :
    (s.apply_post_rebalance_callback_to_partition has_callback
        partitions).1.topic_to_partition_offset_map_cache = []
    ∧ (s.apply_post_rebalance_callback_to_partition has_callback
        partitions).1.topic_to_partition_map
      = partitions.map (fun kv => (kv.1, some kv.2))
    ∧ (s.apply_post_rebalance_callback_to_partition has_callback partitions).2
      = (if has_callback then some partitions else none) := by
  refine ⟨rfl, ?_, rfl⟩
  simp only [ConsumerState.apply_post_rebalance_callback_to_partition,
    ConsumerState.reset_topic_to_partition_offset_cache]
  apply List.map_congr_left
  intro kv hkv
  rw [dget_of_mem_of_nodup hnd hkv]

theorem post_rebalance_resets_witness :
    ((⟨[("old", none)], [("old", [(0, 1)])]⟩ : ConsumerState).apply_post_rebalance_callback_to_partition
        true [("t1", [0, 1]), ("t2", [2])]).1.topic_to_partition_offset_map_cache = []
    ∧ ((⟨[("old", none)], [("old", [(0, 1)])]⟩ : ConsumerState).apply_post_rebalance_callback_to_partition
        true [("t1", [0, 1]), ("t2", [2])]).1.topic_to_partition_map
      = [("t1", some [0, 1]), ("t2", some [2])]
    ∧ ((⟨[("old", none)], [("old", [(0, 1)])]⟩ : ConsumerState).apply_post_rebalance_callback_to_partition
        true [("t1", [0, 1]), ("t2", [2])]).2
      = some [("t1", [0, 1]), ("t2", [2])] :=
  post_rebalance_resets _ _ _ (by decide)

/- Commit diffing: characterisation of _get_offsets_map_to_be_committed. -/

theorem mergeLookup_none_right (a : Option Nat) : mergeLookup a none = a := by
  cases a <;> rfl

theorem mergeLookup_self (a : Option Nat) : mergeLookup a a = a := by
  cases a <;> rfl

theorem commit_filter_partitions_cache_other (t t' : String) (q : Nat) (hne : t' ≠ t) :
    ∀ (pm : List (Nat × Nat)) (c : TopicPartitionOffsetMap) (f : List (Nat × Nat)),
      cacheGet (commit_filter_partitions t c f pm).1 t' q = cacheGet c t' q := by
  intro pm
  induction pm with
  | nil =>
    intro c f
    rfl
  | cons po rest ih =>
    intro c f
    obtain ⟨p, o⟩ := po
    simp only [commit_filter_partitions]
    by_cases hc : dget p ((dget t c).getD []) ≠ some o
    · rw [if_pos hc, ih]
      unfold cacheGet
      rw [dget_dset_ne hne]
    · rw [if_neg hc, ih]
      unfold cacheGet
      rw [dget_dset_ne hne]

theorem commit_filter_partitions_cache_same (t : String) (q : Nat) :
    ∀ (pm : List (Nat × Nat)) (c : TopicPartitionOffsetMap) (f : List (Nat × Nat)),
      (pm.map Prod.fst).Nodup →
      cacheGet (commit_filter_partitions t c f pm).1 t q
        = mergeLookup (dget q pm) (cacheGet c t q) := by
  intro pm
  induction pm with
  | nil =>
    intro c f _
    simp [commit_filter_partitions, dget, mergeLookup]
  | cons po rest ih =>
    intro c f hnd
    obtain ⟨p, o⟩ := po
    simp only [List.map_cons, List.nodup_cons] at hnd
    obtain ⟨hp, hrest⟩ := hnd
    simp only [commit_filter_partitions]
    by_cases hc : dget p ((dget t c).getD []) ≠ some o
    · rw [if_pos hc, ih _ _ hrest]
      have hcg : cacheGet (dset t (dset p o ((dget t c).getD [])) c) t q
          = dget q (dset p o ((dget t c).getD [])) := by
        unfold cacheGet
        rw [dget_dset_self, Option.getD_some]
      rw [hcg]
      by_cases hq : q = p
      · subst hq
        rw [dget_eq_none_of_not_mem hp, dget_dset_self]
        have h1 : dget q ((q, o) :: rest) = some o := by
          simp [dget]
        rw [h1]
        rfl
      · rw [dget_dset_ne hq]
        have h1 : dget q ((p, o) :: rest) = dget q rest := by
          simp [dget, hq]
        rw [h1]
        rfl
    · rw [if_neg hc, ih _ _ hrest]
      rw [not_not] at hc
      have hcg : cacheGet (dset t ((dget t c).getD []) c) t q = cacheGet c t q := by
        unfold cacheGet
        rw [dget_dset_self, Option.getD_some]
      rw [hcg]
      by_cases hq : q = p
      · subst hq
        rw [dget_eq_none_of_not_mem hp]
        have h1 : dget q ((q, o) :: rest) = some o := by
          simp [dget]
        rw [h1]
        have h2 : cacheGet c t q = some o := hc
        rw [h2]
        rfl
      · have h1 : dget q ((p, o) :: rest) = dget q rest := by
          simp [dget, hq]
        rw [h1]

theorem commit_filter_partitions_filtered (t : String) :
    ∀ (pm : List (Nat × Nat)) (c : TopicPartitionOffsetMap) (f : List (Nat × Nat)),
      (pm.map Prod.fst).Nodup →
      (∀ p ∈ pm.map Prod.fst, p ∉ f.map Prod.fst) →
      (commit_filter_partitions t c f pm).2
        = f ++ pm.filter (fun po => decide (cacheGet c t po.1 ≠ some po.2)) := by
  intro pm
  induction pm with
  | nil =>
    intro c f _ _
    simp [commit_filter_partitions]
  | cons po rest ih =>
    intro c f hnd hdisj
    obtain ⟨p, o⟩ := po
    simp only [List.map_cons, List.nodup_cons] at hnd
    obtain ⟨hp, hrest⟩ := hnd
    have hpf : p ∉ f.map Prod.fst := hdisj p (by simp)
    simp only [commit_filter_partitions]
    by_cases hc : dget p ((dget t c).getD []) ≠ some o
    · rw [if_pos hc]
      have hdisj' : ∀ q ∈ rest.map Prod.fst, q ∉ (dset p o f).map Prod.fst := by
        intro q hq
        rw [mem_map_fst_dset]
        push_neg
        refine ⟨?_, hdisj q (List.mem_cons_of_mem _ hq)⟩
        rintro rfl
        exact hp hq
      rw [ih _ _ hrest hdisj']
      rw [dset_eq_append_of_not_mem o hpf]
      have hfc : rest.filter (fun po =>
            decide (cacheGet (dset t (dset p o ((dget t c).getD [])) c) t po.1 ≠ some po.2))
          = rest.filter (fun po => decide (cacheGet c t po.1 ≠ some po.2)) := by
        apply List.filter_congr
        intro x hx
        have hxp : x.1 ≠ p := by
          rintro rfl
          exact hp (List.mem_map.mpr ⟨x, hx, rfl⟩)
        have hcg : cacheGet (dset t (dset p o ((dget t c).getD [])) c) t x.1
            = cacheGet c t x.1 := by
          unfold cacheGet
          rw [dget_dset_self, Option.getD_some, dget_dset_ne hxp]
        rw [hcg]
      rw [hfc]
      have hhead : (fun po : Nat × Nat =>
          decide (cacheGet c t po.1 ≠ some po.2)) (p, o) = true := by
        simpa only [decide_eq_true_eq] using hc
      rw [List.filter_cons, if_pos hhead]
      simp
    · rw [if_neg hc]
      rw [ih _ _ hrest (fun q hq => hdisj q (List.mem_cons_of_mem _ hq))]
      have hfc : rest.filter (fun po =>
            decide (cacheGet (dset t ((dget t c).getD []) c) t po.1 ≠ some po.2))
          = rest.filter (fun po => decide (cacheGet c t po.1 ≠ some po.2)) := by
        apply List.filter_congr
        intro x hx
        have hcg : cacheGet (dset t ((dget t c).getD []) c) t x.1 = cacheGet c t x.1 := by
          unfold cacheGet
          rw [dget_dset_self, Option.getD_some]
        rw [hcg]
      rw [hfc]
      have hhead : (fun po : Nat × Nat =>
          decide (cacheGet c t po.1 ≠ some po.2)) (p, o) = false := by
        simpa only [decide_eq_false_iff_not] using hc
      rw [List.filter_cons]
      simp only [hhead, Bool.false_eq_true, if_false]

theorem diffAgainst_congr (f g : String → Nat → Option Nat) :
    ∀ (m : TopicPartitionOffsetMap),
      (∀ tpm ∈ m, ∀ po ∈ tpm.2, f tpm.1 po.1 = g tpm.1 po.1) →
      diffAgainst f m = diffAgainst g m := by
  intro m
  induction m with
  | nil =>
    intro _
    rfl
  | cons tpm rest ih =>
    intro hfg
    simp only [diffAgainst, List.map_cons, List.flatten_cons]
    congr 1
    · apply congrArg (List.map _)
      apply List.filter_congr
      intro x hx
      rw [hfg tpm (List.mem_cons_self _ _) x hx]
    · exact ih (fun y hy po hpo => hfg y (List.mem_cons_of_mem _ hy) po hpo)

theorem diffAgainst_cons (f : String → Nat → Option Nat) (t₀ : String)
    (pm₀ : List (Nat × Nat)) (rest : TopicPartitionOffsetMap) :
    diffAgainst f ((t₀, pm₀) :: rest)
      = (pm₀.filter (fun po => decide (f t₀ po.1 ≠ some po.2))).map
          (fun po => OffsetCommitRequest.mk t₀ po.1 po.2)
        ++ diffAgainst f rest := by
  simp [diffAgainst]

theorem mLookup_entry {m : TopicPartitionOffsetMap} (hnd : OffsetsNodup m)
    {t : String} {pm : List (Nat × Nat)} {p o : Nat}
    (h1 : (t, pm) ∈ m) (h2 : (p, o) ∈ pm) : mLookup m t p = some o := by
  unfold mLookup
  rw [dget_of_mem_of_nodup hnd.1 h1, Option.some_bind]
  exact dget_of_mem_of_nodup (hnd.2 (t, pm) h1) h2

theorem diffAgainst_none (m : TopicPartitionOffsetMap) :
    diffAgainst (fun _ _ => (none : Option Nat)) m = offset_commit_request_list m := by
  simp only [diffAgainst, offset_commit_request_list]
  apply congrArg List.flatten
  apply List.map_congr_left
  intro tpm _
  apply congrArg (List.map _)
  rw [List.filter_eq_self]
  intro po _
  simp

theorem diffAgainst_mLookup_self (m : TopicPartitionOffsetMap) (hnd : OffsetsNodup m) :
    diffAgainst (fun t p => mLookup m t p) m = [] := by
  simp only [diffAgainst]
  rw [List.flatten_eq_nil_iff]
  intro l hl
  obtain ⟨tpm, htpm, rfl⟩ := List.mem_map.mp hl
  have hfil : tpm.2.filter (fun po => decide (mLookup m tpm.1 po.1 ≠ some po.2)) = [] := by
    rw [List.filter_eq_nil_iff]
    intro po hpo
    simp only [decide_eq_true_eq, not_not]
    exact mLookup_entry hnd htpm hpo
  rw [hfil, List.map_nil]

theorem offset_commit_request_list_append (a b : TopicPartitionOffsetMap) :
    offset_commit_request_list (a ++ b)
      = offset_commit_request_list a ++ offset_commit_request_list b := by
  simp [offset_commit_request_list]

theorem commit_filter_topics_cache :
    ∀ (m : TopicPartitionOffsetMap) (c filtered : TopicPartitionOffsetMap)
      (t : String) (q : Nat), OffsetsNodup m →
      cacheGet (commit_filter_topics c filtered m).1 t q
        = mergeLookup (mLookup m t q) (cacheGet c t q) := by
  intro m
  induction m with
  | nil =>
    intro c filtered t q _
    simp [commit_filter_topics, mLookup, dget, mergeLookup]
  | cons tpm rest ih =>
    intro c filtered t q hnd
    obtain ⟨t₀, pm₀⟩ := tpm
    obtain ⟨hndt, hndp⟩ := hnd
    simp only [List.map_cons, List.nodup_cons] at hndt
    obtain ⟨ht₀, hrestt⟩ := hndt
    have hrest : OffsetsNodup rest :=
      ⟨hrestt, fun x hx => hndp x (List.mem_cons_of_mem _ hx)⟩
    have hpm₀ : (pm₀.map Prod.fst).Nodup := hndp (t₀, pm₀) (List.mem_cons_self _ _)
    simp only [commit_filter_topics]
    rw [ih _ _ t q hrest]
    by_cases hteq : t = t₀
    · subst hteq
      have h1 : mLookup rest t q = none := by
        unfold mLookup
        rw [dget_eq_none_of_not_mem ht₀]
        rfl
      rw [h1, show ∀ x, mergeLookup none x = x from fun x => rfl]
      rw [commit_filter_partitions_cache_same t q pm₀ c _ hpm₀]
      have h3 : mLookup ((t, pm₀) :: rest) t q = dget q pm₀ := by
        unfold mLookup
        simp [dget]
      rw [h3]
    · rw [commit_filter_partitions_cache_other t₀ t q hteq]
      have h4 : mLookup ((t₀, pm₀) :: rest) t q = mLookup rest t q := by
        unfold mLookup
        simp [dget, hteq]
      rw [h4]

theorem commit_filter_topics_filtered :
    ∀ (m : TopicPartitionOffsetMap) (c filtered : TopicPartitionOffsetMap),
      OffsetsNodup m →
      (∀ t ∈ m.map Prod.fst, t ∉ filtered.map Prod.fst) →
      offset_commit_request_list (commit_filter_topics c filtered m).2
        = offset_commit_request_list filtered ++ diffAgainst (cacheGet c) m := by
  intro m
  induction m with
  | nil =>
    intro c filtered _ _
    simp [commit_filter_topics, diffAgainst]
  | cons tpm rest ih =>
    intro c filtered hnd hdisj
    obtain ⟨t₀, pm₀⟩ := tpm
    obtain ⟨hndt, hndp⟩ := hnd
    simp only [List.map_cons, List.nodup_cons] at hndt
    obtain ⟨ht₀, hrestt⟩ := hndt
    have hrest : OffsetsNodup rest :=
      ⟨hrestt, fun x hx => hndp x (List.mem_cons_of_mem _ hx)⟩
    have hpm₀ : (pm₀.map Prod.fst).Nodup := hndp (t₀, pm₀) (List.mem_cons_self _ _)
    have ht₀f : t₀ ∉ filtered.map Prod.fst := hdisj t₀ (by simp)
    simp only [commit_filter_topics]
    have hf₀ : (dget t₀ filtered).getD [] = ([] : List (Nat × Nat)) := by
      rw [dget_eq_none_of_not_mem ht₀f]
      rfl
    rw [hf₀]
    rw [commit_filter_partitions_filtered t₀ pm₀ c [] hpm₀ (by simp)]
    simp only [List.nil_append]
    have hdiff : diffAgainst (cacheGet (commit_filter_partitions t₀ c [] pm₀).1) rest
        = diffAgainst (cacheGet c) rest := by
      apply diffAgainst_congr
      intro y hy po _
      have hyne : y.1 ≠ t₀ := by
        intro he
        exact ht₀ (he ▸ List.mem_map.mpr ⟨y, hy, rfl⟩)
      exact commit_filter_partitions_cache_other t₀ y.1 po.1 hyne pm₀ c []
    rw [diffAgainst_cons]
    by_cases hchg : pm₀.filter (fun po => decide (cacheGet c t₀ po.1 ≠ some po.2)) = []
    · rw [if_pos hchg]
      rw [ih _ _ hrest (fun q hq => hdisj q (List.mem_cons_of_mem _ hq))]
      rw [hdiff, hchg, List.map_nil, List.nil_append]
    · rw [if_neg hchg]
      have hdisj' : ∀ q ∈ rest.map Prod.fst,
          q ∉ (dset t₀ (pm₀.filter (fun po =>
            decide (cacheGet c t₀ po.1 ≠ some po.2))) filtered).map Prod.fst := by
        intro q hq
        rw [mem_map_fst_dset]
        push_neg
        refine ⟨?_, hdisj q (List.mem_cons_of_mem _ hq)⟩
        rintro rfl
        exact ht₀ hq
      rw [ih _ _ hrest hdisj']
      rw [hdiff]
      rw [dset_eq_append_of_not_mem _ ht₀f, offset_commit_request_list_append]
      have hone : offset_commit_request_list
          [(t₀, pm₀.filter (fun po => decide (cacheGet c t₀ po.1 ≠ some po.2)))]
          = (pm₀.filter (fun po => decide (cacheGet c t₀ po.1 ≠ some po.2))).map
              (fun po => OffsetCommitRequest.mk t₀ po.1 po.2) := by
        simp [offset_commit_request_list]
      rw [hone, List.append_assoc]

/-- C5 counterexample: for the empty map, two back-to-back commitOffsets
calls issue zero broker commit calls, not exactly one, refuting the claim's
quantification over every map. -/
theorem commit_offsets_empty_map_no_call :
    (commit_offsets [] []).2 = none
    ∧ (commit_offsets (commit_offsets [] []).1 []).2 = none := by
  decide

/-- C5 (amended): for every well-formed map m with at least one
(topic, partition, offset) entry, starting from an empty (freshly reset)
offset cache, the first commitOffsets(m) issues exactly one broker call
carrying all of m's entries and an immediate second commitOffsets(m) issues
none; a further commitOffsets(m') issues a broker call exactly when some
entry of m' differs from the offsets stored for m, carrying exactly those
differing entries. -/
theorem commit_offsets_diffing (m : TopicPartitionOffsetMap)
    (h1 : OffsetsNodup m) (h2 : offset_commit_request_list m ≠ []) :
    (commit_offsets [] m).2 = some (offset_commit_request_list m)
    ∧ (commit_offsets (commit_offsets [] m).1 m).2 = none
    ∧ ∀ m', OffsetsNodup m' →
        (commit_offsets ((commit_offsets (commit_offsets [] m).1 m).1) m').2
          = send_offset_commit_requests
              (diffAgainst (fun t p => mLookup m t p) m') := by
  have hf1 : offset_commit_request_list (commit_filter_topics [] [] m).2
      = offset_commit_request_list m := by
    rw [commit_filter_topics_filtered m [] [] h1 (by simp)]
    have hcg : diffAgainst (cacheGet []) m
        = diffAgainst (fun _ _ => (none : Option Nat)) m :=
      diffAgainst_congr _ _ m (fun _ _ _ _ => rfl)
    rw [hcg, diffAgainst_none]
    rfl
  have hcache1 : ∀ t p, cacheGet (commit_filter_topics [] [] m).1 t p = mLookup m t p := by
    intro t p
    rw [commit_filter_topics_cache m [] [] t p h1]
    exact mergeLookup_none_right _
  refine ⟨?_, ?_, ?_⟩
  · simp only [commit_offsets, get_offsets_map_to_be_committed]
    rw [hf1]
    unfold send_offset_commit_requests
    rw [if_pos (List.length_pos.mpr h2)]
  · simp only [commit_offsets, get_offsets_map_to_be_committed]
    have hf2 : offset_commit_request_list
        (commit_filter_topics (commit_filter_topics [] [] m).1 [] m).2 = [] := by
      rw [commit_filter_topics_filtered m _ [] h1 (by simp)]
      have hcg : diffAgainst (cacheGet (commit_filter_topics [] [] m).1) m
          = diffAgainst (fun t p => mLookup m t p) m :=
        diffAgainst_congr _ _ m (fun tpm _ po _ => hcache1 tpm.1 po.1)
      rw [hcg, diffAgainst_mLookup_self m h1]
      rfl
    rw [hf2]
    rfl
  · intro m' hnd'
    simp only [commit_offsets, get_offsets_map_to_be_committed]
    have hcache2 : ∀ t p,
        cacheGet (commit_filter_topics (commit_filter_topics [] [] m).1 [] m).1 t p
          = mLookup m t p := by
      intro t p
      rw [commit_filter_topics_cache m _ [] t p h1, hcache1]
      exact mergeLookup_self _
    have hf3 : offset_commit_request_list
        (commit_filter_topics (commit_filter_topics (commit_filter_topics [] [] m).1 [] m).1
          [] m').2
        = diffAgainst (fun t p => mLookup m t p) m' := by
      rw [commit_filter_topics_filtered m' _ [] hnd' (by simp)]
      have hcg : diffAgainst
          (cacheGet (commit_filter_topics (commit_filter_topics [] [] m).1 [] m).1) m'
          = diffAgainst (fun t p => mLookup m t p) m' :=
        diffAgainst_congr _ _ m' (fun tpm _ po _ => hcache2 tpm.1 po.1)
      rw [hcg]
      rfl
    rw [hf3]

theorem commit_offsets_diffing_witness :
    (commit_offsets [] [("t1", [(0, 5)])]).2
        = some (offset_commit_request_list [("t1", [(0, 5)])])
    ∧ (commit_offsets (commit_offsets [] [("t1", [(0, 5)])]).1 [("t1", [(0, 5)])]).2 = none
    ∧ (commit_offsets ((commit_offsets (commit_offsets [] [("t1", [(0, 5)])]).1
          [("t1", [(0, 5)])]).1) [("t1", [(0, 6)])]).2
        = send_offset_commit_requests
            (diffAgainst (fun t p => mLookup [("t1", [(0, 5)])] t p) [("t1", [(0, 6)])]) := by
  have h := commit_offsets_diffing [("t1", [(0, 5)])] ⟨by decide, by decide⟩ (by decide)
  exact ⟨h.1, h.2.1, h.2.2 [("t1", [(0, 6)])] ⟨by decide, by decide⟩⟩
